import Mathlib

/-
Verification of the aggregation logic of the amana-marketing dashboard.

The repository transforms a flat list of marketing campaigns, each carrying
nested per-week, per-demographic, per-device and per-region performance
records, into chart-ready aggregates.  This file is a shallow embedding of
that logic:

  * app/weekly-view/page.tsx          : weekly aggregation (weeklyMap,
    finalWeeklyList, totalRevenue/totalSpend/avgConversionRate, chart data);
  * app/demographic-view/page.tsx     : demographic aggregation with
    proportional redistribution of campaign spend/revenue
    (demographicMap, aggregatedList, gender metrics, age-group charts);
  * app/device-view/page.tsx          : device aggregation
    (restructureDevicePerformance) and the Mobile/Desktop comparison;
  * app/region-view/page.tsx          : regional aggregation with geo
    enrichment (regionalMap, finalRegionalList, averageRoas);
  * src/lib/geo-data.ts               : static region -> coordinates table.

JavaScript numbers are modelled as rationals, JavaScript objects used as
insertion-ordered accumulator maps are modelled as association lists with an
`upsert` operation that appends new keys at the end and updates existing
keys in place, and `Array.prototype.sort` (a stable sort in modern engines)
is modelled by `List.mergeSort`.
-/

namespace Amana

/- String helpers mirroring the JavaScript operations used by the source.
They are written by structural recursion on the character list so that they
evaluate inside the kernel. -/

/-- Splitting helper: accumulates the current piece in reverse. -/
def splitOnCharAux (sep : Char) : List Char → List Char → List (List Char)
  | [], acc => [acc.reverse]
  | c :: rest, acc =>
    if c = sep then acc.reverse :: splitOnCharAux sep rest []
    else splitOnCharAux sep rest (c :: acc)

/-- JavaScript `s.split(sep)` for a one-character separator.  Every
occurrence of the separator starts a new piece; adjacent separators and
leading/trailing separators produce empty pieces, exactly as in JS. -/
def jsSplit (s : String) (sep : Char) : List String :=
  (splitOnCharAux sep s.toList []).map (fun l => String.mk l)

/-- JavaScript `s.trim()`: drops whitespace from both ends. -/
def jsTrim (s : String) : String :=
  String.mk (((s.toList.dropWhile (fun c => c.isWhitespace)).reverse.dropWhile
    (fun c => c.isWhitespace)).reverse)

/- Accumulator maps.  The source builds plain JS objects / Maps keyed by
strings; for non-numeric string keys, JS iterates entries in insertion
order.  `upsert m k init f`: if `k` is absent a fresh entry `f init` is
appended at the end (the source always creates a zero entry and immediately
adds the record to it), otherwise the stored value is updated in place. -/

/-- Insertion-ordered string-keyed accumulator map update. -/
def upsert {α : Type} : List (String × α) → String → α → (α → α) → List (String × α)
  | [], k, init, f => [(k, f init)]
  | (k', v) :: rest, k, init, f =>
    if k' = k then (k', f v) :: rest else (k', v) :: upsert rest k init f

/-- Every entry of `upsert m k init f` is an untouched entry of `m`, an
updated entry of `m`, or the freshly created entry `(k, f init)`. -/
theorem mem_upsert {α : Type} {m : List (String × α)} {k : String} {init : α}
    {f : α → α} {p : String × α} (hmem : p ∈ upsert m k init f) :
    p ∈ m ∨ (∃ q, q ∈ m ∧ p = (q.1, f q.2)) ∨ p = (k, f init) := by
  revert hmem
  induction m with
  | nil =>
    intro hmem
    simp only [upsert, List.mem_singleton] at hmem
    exact Or.inr (Or.inr hmem)
  | cons q rest ih =>
    intro hmem
    obtain ⟨k', v⟩ := q
    by_cases hk : k' = k
    · subst hk
      simp only [upsert, eq_self_iff_true, if_true, List.mem_cons] at hmem
      rcases hmem with hp | hp
      · exact Or.inr (Or.inl ⟨(k', v), List.mem_cons_self _ _, hp⟩)
      · exact Or.inl (List.mem_cons_of_mem _ hp)
    · simp only [upsert, if_neg hk, List.mem_cons] at hmem
      rcases hmem with hp | hp
      · exact Or.inl (by simp [hp])
      · rcases ih hp with h | ⟨q, hq, hpq⟩ | h
        · exact Or.inl (List.mem_cons_of_mem _ h)
        · exact Or.inr (Or.inl ⟨q, List.mem_cons_of_mem _ hq, hpq⟩)
        · exact Or.inr (Or.inr h)

/-- An entry-wise invariant is preserved by `upsert` as long as it is
preserved by the update function and holds for the fresh entry. -/
theorem upsert_pred {α : Type} (P : String × α → Prop) {m : List (String × α)}
    {k : String} {init : α} {f : α → α}
    (hm : ∀ p ∈ m, P p) (hinit : P (k, f init))
    (hf : ∀ k' v, P (k', v) → P (k', f v)) :
    ∀ p ∈ upsert m k init f, P p := by
  intro p hp
  rcases mem_upsert hp with h | ⟨q, hq, hpq⟩ | h
  · exact hm p h
  · subst hpq; exact hf q.1 q.2 (hm q hq)
  · subst h; exact hinit

/-- If the update adds `d` to a numeric projection `g`, and the fresh entry
carries exactly `d`, then one `upsert` adds `d` to the total of `g`. -/
theorem sum_upsert {α : Type} (g : α → ℚ) {m : List (String × α)} {k : String}
    {init : α} {f : α → α} {d : ℚ}
    (hinit : g (f init) = d) (hf : ∀ v, g (f v) = g v + d) :
    ((upsert m k init f).map (fun p => g p.2)).sum
      = (m.map (fun p => g p.2)).sum + d := by
  induction m with
  | nil => simp [upsert, hinit]
  | cons q rest ih =>
    obtain ⟨k', v⟩ := q
    simp only [upsert]
    by_cases hk : k' = k
    · simp [hk, hf v]; ring
    · simp only [if_neg hk, List.map_cons, List.sum_cons, ih]; ring

/-- JavaScript `reduce((s, x) => s + g x, a)` computes `a` plus the sum. -/
theorem foldl_add_eq_sum {β : Type} (g : β → ℚ) (l : List β) (a : ℚ) :
    l.foldl (fun s x => s + g x) a = a + (l.map g).sum := by
  induction l generalizing a with
  | nil => simp
  | cons x xs ih => simp [ih]; ring

/- Raw data model, from src/types/marketing (as used by the four views).
Every JS number is modelled as a rational. -/

/-- One weekly performance record of a campaign. -/
structure WeeklyRecord where
  week_start : String
  week_end : String
  impressions : ℚ
  clicks : ℚ
  conversions : ℚ
  spend : ℚ
  revenue : ℚ

/-- Engagement counts carried by a demographic record. -/
structure DemoPerformance where
  impressions : ℚ
  clicks : ℚ
  conversions : ℚ

/-- One demographic breakdown record of a campaign. -/
structure DemographicRecord where
  gender : String
  age_group : String
  percentage_of_audience : ℚ
  performance : DemoPerformance

/-- One device performance record of a campaign. -/
structure DeviceRecord where
  device : String
  impressions : ℚ
  clicks : ℚ
  conversions : ℚ
  spend : ℚ
  revenue : ℚ

/-- One regional performance record of a campaign. -/
structure RegionalRecord where
  region : String
  country : String
  impressions : ℚ
  clicks : ℚ
  conversions : ℚ
  spend : ℚ
  revenue : ℚ

/-- A marketing campaign with its nested breakdowns. -/
structure Campaign where
  name : String
  spend : ℚ
  revenue : ℚ
  weekly_performance : List WeeklyRecord
  demographic_breakdown : List DemographicRecord
  device_performance : List DeviceRecord
  regional_performance : List RegionalRecord

/- Weekly aggregation, embedded from app/weekly-view/page.tsx
(`aggregatedData` useMemo body). -/

/-- Accumulator entry of `weeklyMap`, keyed by `week_start`. -/
structure WeeklyTotals where
  weekStart : String
  weekEnd : String
  impressions : ℚ
  clicks : ℚ
  conversions : ℚ
  spend : ℚ
  revenue : ℚ

/-- Fresh zero entry: `weekStart`/`weekEnd` are captured verbatim from the
first record seen for this key. -/
def weeklyInit (week : WeeklyRecord) : WeeklyTotals :=
  ⟨week.week_start, week.week_end, 0, 0, 0, 0, 0⟩

/-- One `+=` block of the weekly accumulation loop. -/
def weeklyAdd (week : WeeklyRecord) (t : WeeklyTotals) : WeeklyTotals :=
  { t with
    impressions := t.impressions + week.impressions
    clicks := t.clicks + week.clicks
    conversions := t.conversions + week.conversions
    spend := t.spend + week.spend
    revenue := t.revenue + week.revenue }

/-- The `weeklyMap` object: totals accumulated by `week_start` across all
campaigns, in insertion order. -/
def weeklyMap (campaigns : List Campaign) : List (String × WeeklyTotals) :=
  campaigns.foldl (fun m campaign =>
    campaign.weekly_performance.foldl (fun m week =>
      upsert m week.week_start (weeklyInit week) (weeklyAdd week)) m) []

/-- One element of `finalWeeklyList` (type `AggregatedWeeklyPerformance`). -/
structure AggregatedWeeklyPerformance where
  weekStart : String
  weekEnd : String
  impressions : ℚ
  clicks : ℚ
  conversions : ℚ
  spend : ℚ
  revenue : ℚ
  ctr : ℚ
  conversionRate : ℚ

/-- Rate computation of step 2 of the weekly aggregation. -/
def finishWeekly (t : WeeklyTotals) : AggregatedWeeklyPerformance :=
  ⟨t.weekStart, t.weekEnd, t.impressions, t.clicks, t.conversions, t.spend,
    t.revenue,
    if t.impressions > 0 then t.clicks / t.impressions else 0,
    if t.clicks > 0 then t.conversions / t.clicks else 0⟩

/-- `finalWeeklyList`: map the accumulated totals to rated groups, then sort
ascending by `week_start`.  The source compares `new Date(weekStart)` values;
for the ISO `YYYY-MM-DD` strings of the data model that order coincides with
lexicographic string order, which is how the comparator is embedded.  The
source's `Array.prototype.sort` is stable, as is `List.mergeSort`. -/
def finalWeeklyList (campaigns : List Campaign) : List AggregatedWeeklyPerformance :=
  ((weeklyMap campaigns).map (fun p => finishWeekly p.2)).mergeSort
    (fun a b => decide (a.weekStart ≤ b.weekStart))

/-- Chart point consumed by the line-chart widget. -/
structure LineChartDataPoint where
  label : String
  value : ℚ
  tooltipLabel : String

/-- Result shape of the weekly view's aggregation. -/
structure WeeklyViewResult where
  totalRevenue : ℚ
  totalSpend : ℚ
  avgConversionRate : ℚ
  revenueChartData : List LineChartDataPoint
  spendChartData : List LineChartDataPoint

/-- `initialWeeklyResult` returned for an empty campaign list. -/
def initialWeeklyResult : WeeklyViewResult := ⟨0, 0, 0, [], []⟩

/-- The whole weekly `aggregatedData` computation. -/
def weeklyViewResult (campaigns : List Campaign) : WeeklyViewResult :=
  if campaigns.length = 0 then initialWeeklyResult else
  let L := finalWeeklyList campaigns
  let totalRevenue := L.foldl (fun sum item => sum + item.revenue) 0
  let totalSpend := L.foldl (fun sum item => sum + item.spend) 0
  let totalConversions := L.foldl (fun sum item => sum + item.conversions) 0
  let totalClicks := L.foldl (fun sum item => sum + item.clicks) 0
  { totalRevenue := totalRevenue
    totalSpend := totalSpend
    avgConversionRate := if totalClicks > 0 then totalConversions / totalClicks else 0
    revenueChartData := L.map (fun item =>
      ⟨item.weekStart.drop 5, item.revenue,
        "Revenue (" ++ item.weekStart ++ " to " ++ item.weekEnd ++ ")"⟩)
    spendChartData := L.map (fun item =>
      ⟨item.weekStart.drop 5, item.spend,
        "Spend (" ++ item.weekStart ++ " to " ++ item.weekEnd ++ ")"⟩) }

/- Demographic aggregation, embedded from app/demographic-view/page.tsx
(`aggregatedData` useMemo body). -/

/-- Accumulator entry of `demographicMap`, keyed by `gender-age_group`. -/
structure DemoTotals where
  impressions : ℚ
  clicks : ℚ
  conversions : ℚ
  spend : ℚ
  revenue : ℚ

/-- Zero entry created when a demographic key is first seen. -/
def demoZero : DemoTotals := ⟨0, 0, 0, 0, 0⟩

/-- Sum of `percentage_of_audience` over one campaign's demographic records
(the `reduce` at the top of the campaign loop). -/
def totalCampaignAudiencePercentage (campaign : Campaign) : ℚ :=
  campaign.demographic_breakdown.foldl
    (fun sum item => sum + item.percentage_of_audience) 0

/-- Redistribution ratio of one record: its audience share of the campaign
total, or 0 if the campaign total is not positive. -/
def ratio (campaign : Campaign) (breakdown : DemographicRecord) : ℚ :=
  if totalCampaignAudiencePercentage campaign > 0 then
    breakdown.percentage_of_audience / totalCampaignAudiencePercentage campaign
  else 0

/-- The campaign's spend share attributed to one demographic record. -/
def distributedSpend (campaign : Campaign) (breakdown : DemographicRecord) : ℚ :=
  campaign.spend * ratio campaign breakdown

/-- The campaign's revenue share attributed to one demographic record. -/
def distributedRevenue (campaign : Campaign) (breakdown : DemographicRecord) : ℚ :=
  campaign.revenue * ratio campaign breakdown

/-- One `+=` block of the demographic accumulation loop: engagement counts
come from the record itself, financials from the redistributed values. -/
def demoAdd (campaign : Campaign) (breakdown : DemographicRecord)
    (t : DemoTotals) : DemoTotals :=
  ⟨t.impressions + breakdown.performance.impressions,
    t.clicks + breakdown.performance.clicks,
    t.conversions + breakdown.performance.conversions,
    t.spend + distributedSpend campaign breakdown,
    t.revenue + distributedRevenue campaign breakdown⟩

/-- The `demographicMap` object keyed by the concatenation
`gender ++ "-" ++ age_group`, in insertion order. -/
def demographicMap (campaigns : List Campaign) : List (String × DemoTotals) :=
  campaigns.foldl (fun m campaign =>
    campaign.demographic_breakdown.foldl (fun m breakdown =>
      upsert m (breakdown.gender ++ "-" ++ breakdown.age_group) demoZero
        (demoAdd campaign breakdown)) m) []

/-- One element of `aggregatedList` (type `AggregatedDemographicGroup`). -/
structure AggregatedDemographicGroup where
  ageGroup : String
  gender : String
  impressions : ℚ
  clicks : ℚ
  conversions : ℚ
  spend : ℚ
  revenue : ℚ
  ctr : ℚ
  conversionRate : ℚ

/-- `aggregatedList`: finalize the map entries.  The source recovers gender
and age group by `const [gender, ageGroup] = key.split('-')`: the composite
key is split on every hyphen and only the first two pieces are kept. -/
def aggregatedList (campaigns : List Campaign) : List AggregatedDemographicGroup :=
  (demographicMap campaigns).map (fun p =>
    let parts := jsSplit p.1 '-'
    let gender := parts.getD 0 ""
    let ageGroup := parts.getD 1 ""
    ⟨ageGroup, gender, p.2.impressions, p.2.clicks, p.2.conversions,
      p.2.spend, p.2.revenue,
      if p.2.impressions > 0 then p.2.clicks / p.2.impressions else 0,
      if p.2.clicks > 0 then p.2.conversions / p.2.clicks else 0⟩)

/-- Rows of the male table / inputs of the male gender metrics. -/
def maleData (campaigns : List Campaign) : List AggregatedDemographicGroup :=
  (aggregatedList campaigns).filter (fun row => row.gender == "Male")

/-- Rows of the female table / inputs of the female gender metrics. -/
def femaleData (campaigns : List Campaign) : List AggregatedDemographicGroup :=
  (aggregatedList campaigns).filter (fun row => row.gender == "Female")

/-- Gender-level card metrics. -/
structure GenderMetrics where
  totalClicks : ℚ
  totalSpend : ℚ
  totalRevenue : ℚ

/-- `initialMetrics` used for the empty campaign list. -/
def initialMetrics : GenderMetrics := ⟨0, 0, 0⟩

/-- `calculateMetrics`: plain sums over one gender's rows. -/
def calculateMetrics (data : List AggregatedDemographicGroup) : GenderMetrics :=
  ⟨data.foldl (fun sum row => sum + row.clicks) 0,
    data.foldl (fun sum row => sum + row.spend) 0,
    data.foldl (fun sum row => sum + row.revenue) 0⟩

/-- Spend/revenue accumulator of the age-group bar charts. -/
structure AgeTotals where
  spend : ℚ
  revenue : ℚ

/-- The `ageDataMap` object: spend/revenue summed over both genders per
(already split) age-group label, in insertion order. -/
def ageDataMap (campaigns : List Campaign) : List (String × AgeTotals) :=
  (aggregatedList campaigns).foldl (fun m row =>
    upsert m row.ageGroup ⟨0, 0⟩
      (fun t => ⟨t.spend + row.spend, t.revenue + row.revenue⟩)) []

/-- Leading decimal integer of a string, as read by JavaScript `parseInt`
on the nonnegative labels at hand; `none` models `NaN`. -/
def parseIntLeading (s : String) : Option Nat :=
  let ds := s.toList.takeWhile (fun c => c.isDigit)
  if ds = [] then none
  else some (ds.foldl (fun n c => n * 10 + (c.toNat - 48)) 0)

/-- Comparator of the age-group sort,
`parseInt(a.split('-')[0]) - parseInt(b.split('-')[0])`.  When either side
is `NaN` the subtraction is `NaN`, which the ECMAScript SortCompare rule
treats as 0, i.e. as equal; the stable sort then keeps the original order,
which for a boolean `le` comparator means answering `true`. -/
def ageLe (a b : String) : Bool :=
  match parseIntLeading ((jsSplit a '-').getD 0 ""),
      parseIntLeading ((jsSplit b '-').getD 0 "") with
  | some x, some y => decide (x ≤ y)
  | _, _ => true

/-- `ageGroups`: the age-group keys sorted ascending by leading integer. -/
def ageGroups (campaigns : List Campaign) : List String :=
  ((ageDataMap campaigns).map Prod.fst).mergeSort ageLe

/-- Categorical bar-chart point. -/
structure ChartDataPoint where
  label : String
  value : ℚ
  color : String

/-- JavaScript `ageDataMap[group]` (the key is always present when the
source reads it). -/
def lookupAge (m : List (String × AgeTotals)) (k : String) : AgeTotals :=
  ((m.find? (fun p => p.1 == k)).map Prod.snd).getD ⟨0, 0⟩

/-- `spendChart`: one red bar per age group, in sorted order. -/
def spendChart (campaigns : List Campaign) : List ChartDataPoint :=
  (ageGroups campaigns).map (fun group =>
    ⟨group, (lookupAge (ageDataMap campaigns) group).spend, "#f87171"⟩)

/-- `revenueChart`: one green bar per age group, in sorted order. -/
def revenueChart (campaigns : List Campaign) : List ChartDataPoint :=
  (ageGroups campaigns).map (fun group =>
    ⟨group, (lookupAge (ageDataMap campaigns) group).revenue, "#4ade80"⟩)

/-- Result shape of the demographic view's aggregation.  The per-row table
data of the source is display formatting (locale strings) of
`maleData`/`femaleData` and carries no further computation. -/
structure AggregatedDataResult where
  maleMetrics : GenderMetrics
  femaleMetrics : GenderMetrics
  spendChart : List ChartDataPoint
  revenueChart : List ChartDataPoint

/-- The whole demographic `aggregatedData` computation, including the
early return for the empty campaign list. -/
def demographicViewResult (campaigns : List Campaign) : AggregatedDataResult :=
  if campaigns.length = 0 then ⟨initialMetrics, initialMetrics, [], []⟩
  else
    ⟨calculateMetrics (maleData campaigns),
      calculateMetrics (femaleData campaigns),
      spendChart campaigns, revenueChart campaigns⟩

/- Device aggregation, embedded from app/device-view/page.tsx
(`restructureDevicePerformance` and the comparison block of the page). -/

/-- Per-device accumulator record. -/
structure DeviceTotals where
  impressions : ℚ
  clicks : ℚ
  conversions : ℚ
  spend : ℚ
  revenue : ℚ

/-- Zero accumulator, the initial Map value for both devices. -/
def deviceZero : DeviceTotals := ⟨0, 0, 0, 0, 0⟩

/-- One `+=` block of the device accumulation loop. -/
def deviceAdd (stat : DeviceRecord) (t : DeviceTotals) : DeviceTotals :=
  ⟨t.impressions + stat.impressions, t.clicks + stat.clicks,
    t.conversions + stat.conversions, t.spend + stat.spend,
    t.revenue + stat.revenue⟩

/-- Body of the device accumulation loop: a record is added to one of the
two accumulators when its trimmed device string matches exactly
(case-sensitively); anything else is skipped. -/
def devInnerStep (acc : DeviceTotals × DeviceTotals) (stat : DeviceRecord) :
    DeviceTotals × DeviceTotals :=
  let deviceKey := jsTrim stat.device
  if deviceKey = "Mobile" then (deviceAdd stat acc.1, acc.2)
  else if deviceKey = "Desktop" then (acc.1, deviceAdd stat acc.2)
  else acc

/-- The source's `aggregatedDataMap` is a `Map` created with exactly the two
keys `Mobile` and `Desktop` and never extended, so it is embedded as a pair
(Mobile accumulator, Desktop accumulator). -/
def devAccum (campaigns : List Campaign) : DeviceTotals × DeviceTotals :=
  campaigns.foldl (fun acc campaign =>
    campaign.device_performance.foldl devInnerStep acc)
    (deviceZero, deviceZero)

/-- JavaScript `parseFloat(x.toFixed(2))`: round to two decimal places;
on a tie ECMAScript `toFixed` picks the larger candidate, i.e. rounds half
toward positive infinity. -/
def round2 (q : ℚ) : ℚ := (⌊q * 100 + 1 / 2⌋ : ℤ) / 100

/-- Output group of `restructureDevicePerformance`. -/
structure AggregatedDeviceData where
  device : String
  total_impressions : ℚ
  total_clicks : ℚ
  total_conversions : ℚ
  total_spend : ℚ
  total_revenue : ℚ
  average_ctr : ℚ
  average_conversion_rate : ℚ

/-- Push step of the results loop: a group is pushed only when it has a
positive impression, click or conversion count; spend and revenue are
rounded to two decimals, and the two rates are percentages (ratio times
100) rounded to two decimals. -/
def emitDevice (device : String) (data : DeviceTotals) : List AggregatedDeviceData :=
  if data.impressions > 0 ∨ data.clicks > 0 ∨ data.conversions > 0 then
    [⟨device, data.impressions, data.clicks, data.conversions,
      round2 data.spend, round2 data.revenue,
      round2 (if data.impressions > 0 then data.clicks / data.impressions * 100 else 0),
      round2 (if data.clicks > 0 then data.conversions / data.clicks * 100 else 0)⟩]
  else []

/-- `restructureDevicePerformance`: the Map is iterated in insertion order,
Mobile first.  The `!Array.isArray` guard of the source is outside the
typed model; the empty-list early return is kept. -/
def restructureDevicePerformance (campaigns : List Campaign) : List AggregatedDeviceData :=
  if campaigns.length = 0 then [] else
  emitDevice "Mobile" (devAccum campaigns).1
    ++ emitDevice "Desktop" (devAccum campaigns).2

/-- `deviceData.find(d => d.device === 'Mobile')` of the device page. -/
def mobileData (campaigns : List Campaign) : Option AggregatedDeviceData :=
  (restructureDevicePerformance campaigns).find? (fun d => d.device == "Mobile")

/-- `deviceData.find(d => d.device === 'Desktop')` of the device page. -/
def desktopData (campaigns : List Campaign) : Option AggregatedDeviceData :=
  (restructureDevicePerformance campaigns).find? (fun d => d.device == "Desktop")

/-- The `deltaPercent` computation of the device page, evaluated only when
both groups were found: absolute revenue difference over the Desktop
revenue (with denominator 1 substituted when the Desktop revenue is 0),
times 100. -/
def deltaPercent (mob desk : AggregatedDeviceData) : ℚ :=
  let revenueComparison := mob.total_revenue - desk.total_revenue
  let deltaBaseRevenue := if desk.total_revenue = 0 then 1 else desk.total_revenue
  |revenueComparison| / deltaBaseRevenue * 100

/- Geo lookup, embedded from src/lib/geo-data.ts. -/

/-- Position/color entry of the static geo table. -/
structure GeoPosition where
  lat : ℚ
  lon : ℚ
  color : String

/-- The static `REGION_COORDINATES` table. -/
def REGION_COORDINATES : List (String × GeoPosition) :=
  [("Abu Dhabi", ⟨24.466667, 54.366669, "#f87171"⟩),
    ("Dubai", ⟨25.276987, 55.296249, "#f87171"⟩),
    ("Sharjah", ⟨25.357125, 55.405167, "#f87171"⟩),
    ("Riyadh", ⟨24.713552, 46.675296, "#f87171"⟩),
    ("Doha", ⟨25.2854, 51.5310, "#f87171"⟩),
    ("Kuwait City", ⟨29.3759, 47.9774, "#f87171"⟩),
    ("Manama", ⟨26.2285, 50.5860, "#f87171"⟩),
    ("New York", ⟨40.712776, -74.005974, "#4ade80"⟩),
    ("California", ⟨36.778259, -119.417931, "#4ade80"⟩),
    ("Toronto", ⟨43.6532, -79.3832, "#4ade80"⟩),
    ("London", ⟨51.507351, -0.127758, "#fbbf24"⟩),
    ("Paris", ⟨48.856613, 2.352222, "#fbbf24"⟩),
    ("Berlin", ⟨52.520008, 13.404954, "#fbbf24"⟩),
    ("Singapore", ⟨1.352083, 103.819836, "#60a5fa"⟩),
    ("Tokyo", ⟨35.689487, 139.691711, "#60a5fa"⟩),
    ("Cairo", ⟨30.033333, 31.233334, "#a78bfa"⟩)]

/-- `getCoordinates`: table lookup with the documented fallback
`{lat 0, lon 0, color #94a3b8}` for unknown region names. -/
def getCoordinates (region : String) : GeoPosition :=
  ((REGION_COORDINATES.find? (fun p => p.1 == region)).map Prod.snd).getD
    ⟨0, 0, "#94a3b8"⟩

/- Regional aggregation, embedded from app/region-view/page.tsx
(`aggregatedData` useMemo body). -/

/-- Accumulator entry of `regionalMap`, keyed by `region-country`.  Region,
country and coordinates are captured when the key is first seen (the spread
`...region` plus the `getCoordinates` lookup); later records for the same
key only add to the numeric totals. -/
structure RegionalTotals where
  region : String
  country : String
  impressions : ℚ
  clicks : ℚ
  conversions : ℚ
  spend : ℚ
  revenue : ℚ
  latitude : ℚ
  longitude : ℚ

/-- Fresh entry for a first-seen region key. -/
def regionalInit (r : RegionalRecord) : RegionalTotals :=
  ⟨r.region, r.country, 0, 0, 0, 0, 0,
    (getCoordinates r.region).lat, (getCoordinates r.region).lon⟩

/-- One `+=` block of the regional accumulation loop. -/
def regionalAdd (r : RegionalRecord) (t : RegionalTotals) : RegionalTotals :=
  { t with
    impressions := t.impressions + r.impressions
    clicks := t.clicks + r.clicks
    conversions := t.conversions + r.conversions
    spend := t.spend + r.spend
    revenue := t.revenue + r.revenue }

/-- The `regionalMap` object, in insertion order. -/
def regionalMap (campaigns : List Campaign) : List (String × RegionalTotals) :=
  campaigns.foldl (fun m campaign =>
    campaign.regional_performance.foldl (fun m region =>
      upsert m (region.region ++ "-" ++ region.country) (regionalInit region)
        (regionalAdd region)) m) []

/-- One element of `finalRegionalList`. -/
structure AggregatedRegionalPerformance where
  region : String
  country : String
  impressions : ℚ
  clicks : ℚ
  conversions : ℚ
  spend : ℚ
  revenue : ℚ
  ctr : ℚ
  conversionRate : ℚ
  cpc : ℚ
  cpa : ℚ
  roas : ℚ
  latitude : ℚ
  longitude : ℚ

/-- Rate computation of step 2 of the regional aggregation. -/
def finishRegional (t : RegionalTotals) : AggregatedRegionalPerformance :=
  ⟨t.region, t.country, t.impressions, t.clicks, t.conversions, t.spend,
    t.revenue,
    if t.impressions > 0 then t.clicks / t.impressions else 0,
    if t.clicks > 0 then t.conversions / t.clicks else 0,
    if t.clicks > 0 then t.spend / t.clicks else 0,
    if t.conversions > 0 then t.spend / t.conversions else 0,
    if t.spend > 0 then t.revenue / t.spend else 0,
    t.latitude, t.longitude⟩

/-- `finalRegionalList`: rate the accumulated totals, then drop every group
whose coordinates are exactly (0, 0)
(`.filter(item => item.latitude !== 0 || item.longitude !== 0)`). -/
def finalRegionalList (campaigns : List Campaign) : List AggregatedRegionalPerformance :=
  ((regionalMap campaigns).map (fun p => finishRegional p.2)).filter
    (fun item => decide (item.latitude ≠ 0) || decide (item.longitude ≠ 0))

/-- `averageRoas`: arithmetic mean of the per-group `roas` values over the
final filtered list (simple mean, not a ratio of sums), together with the
all-zero early return of the view for an empty campaign list. -/
def averageRoas (campaigns : List Campaign) : ℚ :=
  if campaigns.length = 0 then 0 else
  let L := finalRegionalList campaigns
  let totalRoasSum := L.foldl (fun sum item => sum + item.roas) 0
  if L.length > 0 then totalRoasSum / (L.length : ℚ) else 0

/-- The source then sorts `finalRegionalList` in place by revenue
descending (for `topRegion` and the map data); `Array.prototype.sort` is
stable and so is `List.mergeSort`. -/
def sortedRegionalList (campaigns : List Campaign) : List AggregatedRegionalPerformance :=
  (finalRegionalList campaigns).mergeSort (fun a b => decide (b.revenue ≤ a.revenue))

/-- Regional `totalRevenue` card metric, with the empty-list early return. -/
def regionalTotalRevenue (campaigns : List Campaign) : ℚ :=
  if campaigns.length = 0 then 0 else
  (finalRegionalList campaigns).foldl (fun sum item => sum + item.revenue) 0

/-- Regional `totalSpend` card metric, with the empty-list early return. -/
def regionalTotalSpend (campaigns : List Campaign) : ℚ :=
  if campaigns.length = 0 then 0 else
  (finalRegionalList campaigns).foldl (fun sum item => sum + item.spend) 0

/- Generic lemmas about the accumulation loops.  Every aggregation is a
fold over campaigns of a fold over that campaign's records of one `upsert`,
so invariants, totals and key properties are proved once here. -/

/-- Entry-wise invariants survive a whole record loop. -/
theorem upsert_foldl_pred {α β : Type} (P : String × α → Prop)
    (key : β → String) (ini : β → α) (upd : β → α → α)
    (hinit : ∀ b, P (key b, upd b (ini b)))
    (hupd : ∀ b k v, P (k, v) → P (k, upd b v)) :
    ∀ (l : List β) (m : List (String × α)), (∀ p ∈ m, P p) →
      ∀ p ∈ l.foldl (fun m b => upsert m (key b) (ini b) (upd b)) m, P p := by
  intro l
  induction l with
  | nil => intro m hm; simpa using hm
  | cons b bs ih =>
    intro m hm
    simp only [List.foldl_cons]
    exact ih _ (upsert_pred P hm (hinit b) (fun k v h => hupd b k v h))

/-- Entry-wise invariants survive the whole campaign loop. -/
theorem foldl2_upsert_pred {α β γ : Type} (P : String × α → Prop)
    (sub : γ → List β) (key : β → String) (ini : γ → β → α)
    (upd : γ → β → α → α)
    (hinit : ∀ c b, P (key b, upd c b (ini c b)))
    (hupd : ∀ c b k v, P (k, v) → P (k, upd c b v)) (cs : List γ) :
    ∀ p ∈ cs.foldl (fun m c => (sub c).foldl
        (fun m b => upsert m (key b) (ini c b) (upd c b)) m) [], P p := by
  suffices h : ∀ (m : List (String × α)), (∀ p ∈ m, P p) →
      ∀ p ∈ cs.foldl (fun m c => (sub c).foldl
        (fun m b => upsert m (key b) (ini c b) (upd c b)) m) m, P p by
    exact h [] (by simp)
  induction cs with
  | nil => intro m hm; simpa using hm
  | cons c cs ih =>
    intro m hm
    simp only [List.foldl_cons]
    exact ih _ (upsert_foldl_pred P key (ini c) (upd c) (hinit c)
      (fun b k v h => hupd c b k v h) (sub c) m hm)

/-- A record loop adds each record's weight to the total of a projection. -/
theorem upsert_foldl_sum {α β : Type} (g : α → ℚ) (key : β → String)
    (ini : β → α) (upd : β → α → α) (w : β → ℚ)
    (hinit : ∀ b, g (upd b (ini b)) = w b)
    (hupd : ∀ b v, g (upd b v) = g v + w b) :
    ∀ (l : List β) (m : List (String × α)),
      ((l.foldl (fun m b => upsert m (key b) (ini b) (upd b)) m).map
          (fun p => g p.2)).sum
        = (m.map (fun p => g p.2)).sum + (l.map w).sum := by
  intro l
  induction l with
  | nil => intro m; simp
  | cons b bs ih =>
    intro m
    simp only [List.foldl_cons, List.map_cons, List.sum_cons]
    rw [ih, sum_upsert g (hinit b) (hupd b)]
    ring

/-- The campaign loop turns the grouped totals of a projection into the raw
input sum: grouping preserves sums. -/
theorem foldl2_upsert_sum {α β γ : Type} (g : α → ℚ) (sub : γ → List β)
    (key : β → String) (ini : γ → β → α) (upd : γ → β → α → α)
    (w : γ → β → ℚ)
    (hinit : ∀ c b, g (upd c b (ini c b)) = w c b)
    (hupd : ∀ c b v, g (upd c b v) = g v + w c b) (cs : List γ) :
    ((cs.foldl (fun m c => (sub c).foldl
          (fun m b => upsert m (key b) (ini c b) (upd c b)) m) []).map
        (fun p => g p.2)).sum
      = (cs.map (fun c => ((sub c).map (w c)).sum)).sum := by
  suffices h : ∀ (m : List (String × α)),
      ((cs.foldl (fun m c => (sub c).foldl
            (fun m b => upsert m (key b) (ini c b) (upd c b)) m) m).map
          (fun p => g p.2)).sum
        = (m.map (fun p => g p.2)).sum
          + (cs.map (fun c => ((sub c).map (w c)).sum)).sum by
    simpa using h []
  induction cs with
  | nil => intro m; simp
  | cons c cs ih =>
    intro m
    simp only [List.foldl_cons, List.map_cons, List.sum_cons]
    rw [ih, upsert_foldl_sum g key (ini c) (upd c) (w c) (hinit c) (hupd c)]
    ring

/-- Keys of an updated map: the new key or an old key. -/
theorem keys_upsert_subset {α : Type} (m : List (String × α)) (k : String)
    (init : α) (f : α → α) :
    ∀ x ∈ (upsert m k init f).map Prod.fst, x ∈ k :: m.map Prod.fst := by
  induction m with
  | nil => simp [upsert]
  | cons q rest ih =>
    obtain ⟨k', v⟩ := q
    by_cases hk : k' = k
    · subst hk
      simp [upsert]
    · intro x hx
      simp only [upsert, if_neg hk, List.map_cons, List.mem_cons] at hx
      rcases hx with hx | hx
      · simp [hx]
      · rcases (by simpa using ih x hx) with h | h
        · simp [h]
        · simp [h]

/-- `upsert` never duplicates a key. -/
theorem keys_upsert_nodup {α : Type} {m : List (String × α)} (k : String)
    (init : α) (f : α → α) (hm : (m.map Prod.fst).Nodup) :
    ((upsert m k init f).map Prod.fst).Nodup := by
  induction m with
  | nil => simp [upsert]
  | cons q rest ih =>
    obtain ⟨k', v⟩ := q
    simp only [List.map_cons, List.nodup_cons] at hm
    by_cases hk : k' = k
    · subst hk
      simpa [upsert] using hm
    · simp only [upsert, if_neg hk, List.map_cons, List.nodup_cons]
      refine ⟨fun hmem => ?_, ih hm.2⟩
      rcases List.mem_cons.mp (keys_upsert_subset rest k init f k' hmem) with h | h
      · exact hk h
      · exact hm.1 h

/-- Key-uniqueness survives a whole record loop. -/
theorem upsert_foldl_nodup {α β : Type} (key : β → String) (ini : β → α)
    (upd : β → α → α) :
    ∀ (l : List β) (m : List (String × α)), (m.map Prod.fst).Nodup →
      (((l.foldl (fun m b => upsert m (key b) (ini b) (upd b)) m).map
        Prod.fst)).Nodup := by
  intro l
  induction l with
  | nil => intro m hm; simpa using hm
  | cons b bs ih =>
    intro m hm
    simp only [List.foldl_cons]
    exact ih _ (keys_upsert_nodup (key b) (ini b) (upd b) hm)

/-- Key-uniqueness survives the whole campaign loop. -/
theorem foldl2_upsert_nodup {α β γ : Type} (sub : γ → List β)
    (key : β → String) (ini : γ → β → α) (upd : γ → β → α → α)
    (cs : List γ) :
    ((cs.foldl (fun m c => (sub c).foldl
        (fun m b => upsert m (key b) (ini c b) (upd c b)) m) []).map
      Prod.fst).Nodup := by
  suffices h : ∀ (m : List (String × α)), (m.map Prod.fst).Nodup →
      ((cs.foldl (fun m c => (sub c).foldl
          (fun m b => upsert m (key b) (ini c b) (upd c b)) m) m).map
        Prod.fst).Nodup by
    exact h [] (by simp)
  induction cs with
  | nil => intro m hm; simpa using hm
  | cons c cs ih =>
    intro m hm
    simp only [List.foldl_cons]
    exact ih _ (upsert_foldl_nodup key (ini c) (upd c) (sub c) m hm)

/- Claim theorems. -/

/-- C1: for every campaign, when the sum of `percentage_of_audience` over
its demographic records is strictly positive, the distributed spend
(resp. revenue) values over those records sum exactly to the campaign's
spend (resp. revenue); when that sum is 0, every record's distributed spend
and revenue are 0. -/
theorem c1_redistribution_preserves_totals (campaign : Campaign) :
    (0 < totalCampaignAudiencePercentage campaign →
      (campaign.demographic_breakdown.map (distributedSpend campaign)).sum
          = campaign.spend
        ∧ (campaign.demographic_breakdown.map (distributedRevenue campaign)).sum
          = campaign.revenue)
    ∧ (totalCampaignAudiencePercentage campaign = 0 →
      ∀ b ∈ campaign.demographic_breakdown,
        distributedSpend campaign b = 0 ∧ distributedRevenue campaign b = 0) := by
  have hT : (campaign.demographic_breakdown.map
      (fun b => b.percentage_of_audience)).sum
        = totalCampaignAudiencePercentage campaign := by
    simpa using
      (foldl_add_eq_sum (fun b => b.percentage_of_audience)
        campaign.demographic_breakdown 0).symm
  constructor
  · intro h
    have hne : totalCampaignAudiencePercentage campaign ≠ 0 := ne_of_gt h
    constructor
    · have hs : ∀ b ∈ campaign.demographic_breakdown,
          distributedSpend campaign b
            = (campaign.spend / totalCampaignAudiencePercentage campaign)
              * b.percentage_of_audience := by
        intro b _
        rw [distributedSpend, ratio, if_pos h]
        ring
      rw [List.map_congr_left hs, List.sum_map_mul_left, hT,
        div_mul_cancel₀ _ hne]
    · have hs : ∀ b ∈ campaign.demographic_breakdown,
          distributedRevenue campaign b
            = (campaign.revenue / totalCampaignAudiencePercentage campaign)
              * b.percentage_of_audience := by
        intro b _
        rw [distributedRevenue, ratio, if_pos h]
        ring
      rw [List.map_congr_left hs, List.sum_map_mul_left, hT,
        div_mul_cancel₀ _ hne]
  · intro h0 b _
    constructor
    · rw [distributedSpend, ratio, h0]
      norm_num
    · rw [distributedRevenue, ratio, h0]
      norm_num

/-- Concrete campaign for the C1 witness: spend 200, revenue 400, audience
percentages 30 and 70. -/
def c1camp : Campaign :=
  ⟨"c1", 200, 400, [],
    [⟨"Male", "18-24", 30, ⟨0, 0, 0⟩⟩, ⟨"Female", "25-34", 70, ⟨0, 0, 0⟩⟩],
    [], []⟩

/-- Witness for C1 at a campaign with audience percentages 30 and 70. -/
theorem c1_redistribution_preserves_totals_witness :
    0 < totalCampaignAudiencePercentage c1camp
      ∧ (c1camp.demographic_breakdown.map (distributedSpend c1camp)).sum
          = c1camp.spend
      ∧ (c1camp.demographic_breakdown.map (distributedRevenue c1camp)).sum
          = c1camp.revenue := by
  have h : 0 < totalCampaignAudiencePercentage c1camp := by
    norm_num [totalCampaignAudiencePercentage, c1camp]
  exact ⟨h, (c1_redistribution_preserves_totals c1camp).1 h⟩

/-- C7: when both a Mobile and a Desktop group are found, the revenue delta
percentage is the absolute revenue difference over the Desktop revenue
times 100, with denominator 1 substituted exactly when the Desktop revenue
is 0 (in which case it degenerates to the absolute Mobile revenue times
100); the computation is total and never divides by zero. -/
theorem c7_delta_percent_formula (campaigns : List Campaign)
    (mob desk : AggregatedDeviceData)
    (hm : mobileData campaigns = some mob)
    (hd : desktopData campaigns = some desk) :
    (desk.total_revenue ≠ 0 →
      deltaPercent mob desk
        = |mob.total_revenue - desk.total_revenue| / desk.total_revenue * 100)
    ∧ (desk.total_revenue = 0 →
      deltaPercent mob desk = |mob.total_revenue| * 100) := by
  constructor
  · intro h
    rw [deltaPercent]
    simp [h]
  · intro h
    rw [deltaPercent]
    simp [h]

/-- Concrete campaign for the C7 witness: one Mobile record with revenue 10
and one Desktop record with revenue 5, both with one impression. -/
def c7camp : Campaign :=
  ⟨"c7", 0, 0, [], [],
    [⟨"Mobile", 1, 0, 0, 0, 10⟩, ⟨"Desktop", 1, 0, 0, 0, 5⟩], []⟩

/-- Witness for C7: with Mobile revenue 10 and Desktop revenue 5 the delta
percentage is `|10 - 5| / 5 * 100`. -/
theorem c7_delta_percent_formula_witness :
    deltaPercent ⟨"Mobile", 1, 0, 0, 0, 10, 0, 0⟩ ⟨"Desktop", 1, 0, 0, 0, 5, 0, 0⟩
      = |(10 : ℚ) - 5| / 5 * 100 := by
  have hm : mobileData [c7camp] = some ⟨"Mobile", 1, 0, 0, 0, 10, 0, 0⟩ := by
    simp [mobileData, restructureDevicePerformance, devAccum, devInnerStep,
      deviceAdd, deviceZero, emitDevice, jsTrim, round2, c7camp]
    norm_num
  have hd : desktopData [c7camp] = some ⟨"Desktop", 1, 0, 0, 0, 5, 0, 0⟩ := by
    simp [desktopData, restructureDevicePerformance, devAccum, devInnerStep,
      deviceAdd, deviceZero, emitDevice, jsTrim, round2, c7camp]
    norm_num
  exact (c7_delta_percent_formula [c7camp] _ _ hm hd).1 (by norm_num)

/-- C8: for the empty campaign list every aggregation returns all-zero
totals and empty output sequences, without error: the weekly view returns
`initialWeeklyResult` (zero totals, empty charts), the demographic view
returns zero gender metrics and empty charts, the device aggregation
returns the empty group list, and the regional aggregation has an empty
final list and zero totals and average ROAS. -/
theorem c8_empty_campaign_list_all_zero :
    weeklyViewResult [] = initialWeeklyResult
      ∧ initialWeeklyResult.totalRevenue = 0
      ∧ initialWeeklyResult.totalSpend = 0
      ∧ initialWeeklyResult.avgConversionRate = 0
      ∧ initialWeeklyResult.revenueChartData = []
      ∧ initialWeeklyResult.spendChartData = []
      ∧ demographicViewResult [] = ⟨initialMetrics, initialMetrics, [], []⟩
      ∧ initialMetrics.totalClicks = 0
      ∧ initialMetrics.totalSpend = 0
      ∧ initialMetrics.totalRevenue = 0
      ∧ restructureDevicePerformance [] = []
      ∧ finalRegionalList [] = []
      ∧ regionalTotalRevenue [] = 0
      ∧ regionalTotalSpend [] = 0
      ∧ averageRoas [] = 0 :=
  ⟨rfl, rfl, rfl, rfl, rfl, rfl, rfl, rfl, rfl, rfl, rfl, rfl, rfl, rfl, rfl⟩

/-- Keep-predicate of C5's no-contribution statement: records whose trimmed
device string is exactly Mobile or Desktop. -/
def devKeep (stat : DeviceRecord) : Bool :=
  jsTrim stat.device == "Mobile" || jsTrim stat.device == "Desktop"

/-- A record failing `devKeep` leaves the device accumulators unchanged. -/
theorem devInnerStep_skip {acc : DeviceTotals × DeviceTotals}
    {stat : DeviceRecord} (h : devKeep stat = false) :
    devInnerStep acc stat = acc := by
  rw [devKeep] at h
  simp only [Bool.or_eq_false_iff, beq_eq_false_iff_ne, ne_eq] at h
  rw [devInnerStep]
  simp [h.1, h.2]

/-- Dropping the non-Mobile/Desktop records of one campaign does not change
the device accumulation. -/
theorem devFold_filter (l : List DeviceRecord) :
    ∀ (acc : DeviceTotals × DeviceTotals),
      (l.filter devKeep).foldl devInnerStep acc = l.foldl devInnerStep acc := by
  induction l with
  | nil => intro acc; rfl
  | cons stat rest ih =>
    intro acc
    by_cases hk : devKeep stat
    · simp only [List.filter_cons, hk, if_true, List.foldl_cons]
      exact ih _
    · have hk' : devKeep stat = false := by simpa using hk
      simp only [List.filter_cons, hk', List.foldl_cons,
        devInnerStep_skip hk']
      exact ih _

/-- Dropping the non-Mobile/Desktop records of every campaign does not
change the device accumulation. -/
theorem devAccum_filter (campaigns : List Campaign) :
    devAccum (campaigns.map (fun c =>
        { c with device_performance := c.device_performance.filter devKeep }))
      = devAccum campaigns := by
  rw [devAccum, devAccum]
  suffices h : ∀ (acc : DeviceTotals × DeviceTotals),
      (campaigns.map (fun c =>
          { c with device_performance :=
            c.device_performance.filter devKeep })).foldl
        (fun acc campaign => campaign.device_performance.foldl devInnerStep acc)
        acc
      = campaigns.foldl
          (fun acc campaign =>
            campaign.device_performance.foldl devInnerStep acc) acc by
    exact h _
  induction campaigns with
  | nil => intro acc; rfl
  | cons c cs ih =>
    intro acc
    simp only [List.map_cons, List.foldl_cons]
    rw [devFold_filter]
    exact ih _

/-- Every group pushed by `emitDevice dev` carries exactly the device name
`dev` and a nonzero count. -/
theorem mem_emitDevice {dev : String} {data : DeviceTotals}
    {g : AggregatedDeviceData} (hg : g ∈ emitDevice dev data) :
    g.device = dev
      ∧ (g.total_impressions ≠ 0 ∨ g.total_clicks ≠ 0
        ∨ g.total_conversions ≠ 0) := by
  rw [emitDevice] at hg
  by_cases h : data.impressions > 0 ∨ data.clicks > 0 ∨ data.conversions > 0
  · rw [if_pos h] at hg
    simp only [List.mem_singleton] at hg
    subst hg
    refine ⟨rfl, ?_⟩
    rcases h with h | h | h
    · exact Or.inl (ne_of_gt h)
    · exact Or.inr (Or.inl (ne_of_gt h))
    · exact Or.inr (Or.inr (ne_of_gt h))
  · rw [if_neg h] at hg
    exact absurd hg (List.not_mem_nil g)

/-- C5: every group output by the device aggregation has device string
exactly Mobile or Desktop and a nonzero accumulated impression, click or
conversion count; and records with any other device string contribute
nothing (filtering them away first yields the same output). -/
theorem c5_device_groups_mobile_desktop_nonzero (campaigns : List Campaign) :
    (∀ g ∈ restructureDevicePerformance campaigns,
      (g.device = "Mobile" ∨ g.device = "Desktop")
        ∧ (g.total_impressions ≠ 0 ∨ g.total_clicks ≠ 0
          ∨ g.total_conversions ≠ 0))
    ∧ restructureDevicePerformance (campaigns.map (fun c =>
        { c with device_performance := c.device_performance.filter devKeep }))
      = restructureDevicePerformance campaigns := by
  constructor
  · intro g hg
    rw [restructureDevicePerformance] at hg
    by_cases hlen : campaigns.length = 0
    · rw [if_pos hlen] at hg
      exact absurd hg (List.not_mem_nil g)
    · rw [if_neg hlen] at hg
      rcases List.mem_append.mp hg with h | h
      · exact ⟨Or.inl (mem_emitDevice h).1, (mem_emitDevice h).2⟩
      · exact ⟨Or.inr (mem_emitDevice h).1, (mem_emitDevice h).2⟩
  · rw [restructureDevicePerformance, restructureDevicePerformance,
      List.length_map, devAccum_filter]

/-- Concrete campaign for the C5 witness: one Mobile record and one Tablet
record. -/
def c5camp : Campaign :=
  ⟨"c5", 0, 0, [], [],
    [⟨"Mobile", 100, 10, 2, 4, 5⟩, ⟨"Tablet", 50, 5, 1, 1, 1⟩], []⟩

/-- Witness for C5: the Mobile group of `c5camp` is in the output and
satisfies the claim. -/
theorem c5_device_groups_mobile_desktop_nonzero_witness :
    ((⟨"Mobile", 100, 10, 2, 4, 5, 10, 20⟩ : AggregatedDeviceData).device
        = "Mobile"
      ∨ (⟨"Mobile", 100, 10, 2, 4, 5, 10, 20⟩ : AggregatedDeviceData).device
        = "Desktop")
    ∧ ((⟨"Mobile", 100, 10, 2, 4, 5, 10, 20⟩ : AggregatedDeviceData).total_impressions ≠ 0
      ∨ (⟨"Mobile", 100, 10, 2, 4, 5, 10, 20⟩ : AggregatedDeviceData).total_clicks ≠ 0
      ∨ (⟨"Mobile", 100, 10, 2, 4, 5, 10, 20⟩ : AggregatedDeviceData).total_conversions ≠ 0) := by
  refine (c5_device_groups_mobile_desktop_nonzero [c5camp]).1
    ⟨"Mobile", 100, 10, 2, 4, 5, 10, 20⟩ ?_
  simp [restructureDevicePerformance, devAccum, devInnerStep, deviceAdd,
    deviceZero, emitDevice, jsTrim, round2, c5camp]
  norm_num

/-- C9: the device aggregation outputs at most two groups, at most one per
device, and when both are present the Mobile group precedes the Desktop
group: the projected device-name sequence is a sublist of
`[Mobile, Desktop]`. -/
theorem c9_device_output_shape (campaigns : List Campaign) :
    (restructureDevicePerformance campaigns).length ≤ 2
      ∧ ((restructureDevicePerformance campaigns).map
          (fun g => g.device)).Nodup
      ∧ ((restructureDevicePerformance campaigns).map
          (fun g => g.device)).Sublist ["Mobile", "Desktop"] := by
  rw [restructureDevicePerformance]
  by_cases hlen : campaigns.length = 0
  · rw [if_pos hlen]
    refine ⟨by simp, by simp, ?_⟩
    simp
  · rw [if_neg hlen, emitDevice, emitDevice]
    by_cases h1 : (devAccum campaigns).1.impressions > 0
        ∨ (devAccum campaigns).1.clicks > 0
        ∨ (devAccum campaigns).1.conversions > 0
      <;> by_cases h2 : (devAccum campaigns).2.impressions > 0
        ∨ (devAccum campaigns).2.clicks > 0
        ∨ (devAccum campaigns).2.conversions > 0
    · rw [if_pos h1, if_pos h2]
      exact ⟨by simp, by simp, by simp⟩
    · rw [if_pos h1, if_neg h2]
      exact ⟨by simp, by simp, by simp⟩
    · rw [if_neg h1, if_pos h2]
      exact ⟨by simp, by simp, by simp⟩
    · rw [if_neg h1, if_neg h2]
      exact ⟨by simp, by simp, by simp⟩

/-- In a map with distinct keys, two entries with the same key are equal. -/
theorem eq_of_mem_keys_nodup {α : Type} {m : List (String × α)}
    (hm : (m.map Prod.fst).Nodup) {p q : String × α}
    (hp : p ∈ m) (hq : q ∈ m) (h : p.1 = q.1) : p = q := by
  induction m with
  | nil => exact absurd hp (List.not_mem_nil p)
  | cons r rest ih =>
    simp only [List.map_cons, List.nodup_cons] at hm
    rcases List.mem_cons.mp hp with hp1 | hp1
      <;> rcases List.mem_cons.mp hq with hq1 | hq1
    · rw [hp1, hq1]
    · exfalso
      apply hm.1
      rw [← hp1, h]
      exact List.mem_map_of_mem Prod.fst hq1
    · exfalso
      apply hm.1
      rw [← hq1, ← h]
      exact List.mem_map_of_mem Prod.fst hp1
    · exact ih hm.2 hp1 hq1

/-- Every entry of `regionalMap` is keyed by the concatenation of its own
stored region and country. -/
theorem regionalMap_key (campaigns : List Campaign) :
    ∀ p ∈ regionalMap campaigns, p.1 = p.2.region ++ "-" ++ p.2.country := by
  have h := foldl2_upsert_pred
    (fun p => p.1 = p.2.region ++ "-" ++ p.2.country)
    (fun c => c.regional_performance)
    (fun r => r.region ++ "-" ++ r.country)
    (fun _ r => regionalInit r) (fun _ r t => regionalAdd r t)
    (fun _ r => by simp [regionalAdd, regionalInit])
    (fun _ r k t ht => by simpa [regionalAdd] using ht) campaigns
  exact h

/-- The keys of `regionalMap` are pairwise distinct. -/
theorem regionalMap_keys_nodup (campaigns : List Campaign) :
    ((regionalMap campaigns).map Prod.fst).Nodup := by
  have h := foldl2_upsert_nodup
    (fun c => c.regional_performance)
    (fun r => r.region ++ "-" ++ r.country)
    (fun _ r => regionalInit r) (fun _ r t => regionalAdd r t) campaigns
  exact h

/-- C6: every group of the final regional list has coordinates different
from (0, 0); an internally accumulated region entry whose looked-up
coordinates are the (0, 0) fallback is excluded from the final list (no
final group carries its region and country). -/
theorem c6_final_regional_list_no_null_island (campaigns : List Campaign) :
    (∀ g ∈ finalRegionalList campaigns, g.latitude ≠ 0 ∨ g.longitude ≠ 0)
      ∧ (∀ g ∈ sortedRegionalList campaigns, g.latitude ≠ 0 ∨ g.longitude ≠ 0)
      ∧ (∀ p ∈ regionalMap campaigns,
        p.2.latitude = 0 → p.2.longitude = 0 →
          ∀ g ∈ finalRegionalList campaigns,
            ¬(g.region = p.2.region ∧ g.country = p.2.country)) := by
  have hfirst : ∀ g ∈ finalRegionalList campaigns,
      g.latitude ≠ 0 ∨ g.longitude ≠ 0 := by
    intro g hg
    have hcond := (List.mem_filter.mp hg).2
    simpa using hcond
  refine ⟨hfirst, ?_, ?_⟩
  · intro g hg
    exact hfirst g ((List.mergeSort_perm (finalRegionalList campaigns)
      (fun a b => decide (b.revenue ≤ a.revenue))).mem_iff.mp hg)
  · intro p hp hlat hlon g hg hrc
    have hmem := (List.mem_filter.mp hg).1
    have hcond := (List.mem_filter.mp hg).2
    obtain ⟨q, hq, hgq⟩ := List.mem_map.mp hmem
    have hkeys : q.1 = p.1 := by
      rw [regionalMap_key campaigns q hq, regionalMap_key campaigns p hp]
      have h1 : q.2.region = p.2.region := by
        rw [← hrc.1, ← hgq, finishRegional]
      have h2 : q.2.country = p.2.country := by
        rw [← hrc.2, ← hgq, finishRegional]
      rw [h1, h2]
    have hqp : q = p :=
      eq_of_mem_keys_nodup (regionalMap_keys_nodup campaigns) hq hp hkeys
    have hglat : g.latitude = 0 := by
      rw [← hgq, finishRegional]
      rw [hqp]
      exact hlat
    have hglon : g.longitude = 0 := by
      rw [← hgq, finishRegional]
      rw [hqp]
      exact hlon
    simp [hglat, hglon] at hcond

/-- Concrete campaign for the C6 witness: one record in Abu Dhabi (a mapped
region) and one in Atlantis (unmapped, so it gets the (0, 0) fallback). -/
def c6camp : Campaign :=
  ⟨"c6", 0, 0, [], [], [],
    [⟨"Abu Dhabi", "UAE", 0, 0, 0, 0, 0⟩, ⟨"Atlantis", "None", 0, 0, 0, 0, 0⟩]⟩

/-- Witness for C6: the Abu Dhabi group of `c6camp` is in the final list
and its coordinates are not (0, 0). -/
theorem c6_final_regional_list_no_null_island_witness :
    (⟨"Abu Dhabi", "UAE", 0, 0, 0, 0, 0, 0, 0, 0, 0, 0,
        24.466667, 54.366669⟩ : AggregatedRegionalPerformance).latitude ≠ 0
      ∨ (⟨"Abu Dhabi", "UAE", 0, 0, 0, 0, 0, 0, 0, 0, 0, 0,
        24.466667, 54.366669⟩ : AggregatedRegionalPerformance).longitude ≠ 0 := by
  refine (c6_final_regional_list_no_null_island [c6camp]).1
    ⟨"Abu Dhabi", "UAE", 0, 0, 0, 0, 0, 0, 0, 0, 0, 0,
      24.466667, 54.366669⟩ ?_
  simp [finalRegionalList, regionalMap, regionalInit, regionalAdd,
    finishRegional, getCoordinates, REGION_COORDINATES, upsert, c6camp]
  norm_num

/-- Raw input sum of one numeric field over all records of one device
(trimmed, exact match), across all campaigns. -/
def deviceRawSum (campaigns : List Campaign) (dev : String)
    (f : DeviceRecord → ℚ) : ℚ :=
  (campaigns.map (fun c =>
    ((c.device_performance.filter
      (fun stat => jsTrim stat.device == dev)).map f).sum)).sum

/-- One record loop adds, to each accumulator component, the field sums of
the records whose trimmed device matches that component. -/
theorem devFold_proj (g : DeviceTotals → ℚ) (f : DeviceRecord → ℚ)
    (hadd : ∀ stat t, g (deviceAdd stat t) = g t + f stat) :
    ∀ (l : List DeviceRecord) (acc : DeviceTotals × DeviceTotals),
      g (l.foldl devInnerStep acc).1
          = g acc.1 + ((l.filter
            (fun stat => jsTrim stat.device == "Mobile")).map f).sum
        ∧ g (l.foldl devInnerStep acc).2
          = g acc.2 + ((l.filter
            (fun stat => jsTrim stat.device == "Desktop")).map f).sum := by
  intro l
  induction l with
  | nil => intro acc; simp
  | cons stat rest ih =>
    intro acc
    by_cases hM : jsTrim stat.device = "Mobile"
    · have step : devInnerStep acc stat = (deviceAdd stat acc.1, acc.2) := by
        rw [devInnerStep]
        simp [hM]
      simp only [List.foldl_cons, step, List.filter_cons, hM]
      constructor
      · rw [(ih _).1]
        simp [hadd]
        ring
      · rw [(ih _).2]
        simp
    · by_cases hD : jsTrim stat.device = "Desktop"
      · have step : devInnerStep acc stat = (acc.1, deviceAdd stat acc.2) := by
          rw [devInnerStep]
          simp [hM, hD]
        simp only [List.foldl_cons, step, List.filter_cons, hD]
        constructor
        · rw [(ih _).1]
          simp [hM]
        · rw [(ih _).2]
          simp [hadd]
          ring
      · have step : devInnerStep acc stat = acc := by
          rw [devInnerStep]
          simp [hM, hD]
        simp only [List.foldl_cons, step, List.filter_cons]
        constructor
        · rw [(ih _).1]
          simp [hM]
        · rw [(ih _).2]
          simp [hD]

/-- The accumulated device totals are the raw per-device input sums. -/
theorem devAccum_proj (g : DeviceTotals → ℚ) (f : DeviceRecord → ℚ)
    (hadd : ∀ stat t, g (deviceAdd stat t) = g t + f stat)
    (hzero : g deviceZero = 0) (campaigns : List Campaign) :
    g (devAccum campaigns).1 = deviceRawSum campaigns "Mobile" f
      ∧ g (devAccum campaigns).2 = deviceRawSum campaigns "Desktop" f := by
  rw [devAccum, deviceRawSum, deviceRawSum]
  suffices h : ∀ (acc : DeviceTotals × DeviceTotals),
      g (campaigns.foldl (fun acc campaign =>
          campaign.device_performance.foldl devInnerStep acc) acc).1
        = g acc.1 + (campaigns.map (fun c =>
          ((c.device_performance.filter
            (fun stat => jsTrim stat.device == "Mobile")).map f).sum)).sum
      ∧ g (campaigns.foldl (fun acc campaign =>
          campaign.device_performance.foldl devInnerStep acc) acc).2
        = g acc.2 + (campaigns.map (fun c =>
          ((c.device_performance.filter
            (fun stat => jsTrim stat.device == "Desktop")).map f).sum)).sum by
    have h0 := h (deviceZero, deviceZero)
    rw [hzero] at h0
    simpa using h0
  induction campaigns with
  | nil => intro acc; simp
  | cons c cs ih =>
    intro acc
    simp only [List.foldl_cons, List.map_cons, List.sum_cons]
    constructor
    · rw [(ih _).1, (devFold_proj g f hadd c.device_performance acc).1]
      ring
    · rw [(ih _).2, (devFold_proj g f hadd c.device_performance acc).2]
      ring

/-- The group pushed by `emitDevice` is fully determined by the totals. -/
theorem mem_emitDevice_eq {dev : String} {data : DeviceTotals}
    {g : AggregatedDeviceData} (hg : g ∈ emitDevice dev data) :
    g = ⟨dev, data.impressions, data.clicks, data.conversions,
      round2 data.spend, round2 data.revenue,
      round2 (if data.impressions > 0
        then data.clicks / data.impressions * 100 else 0),
      round2 (if data.clicks > 0
        then data.conversions / data.clicks * 100 else 0)⟩ := by
  rw [emitDevice] at hg
  by_cases h : data.impressions > 0 ∨ data.clicks > 0 ∨ data.conversions > 0
  · rw [if_pos h] at hg
    simpa using hg
  · rw [if_neg h] at hg
    exact absurd hg (List.not_mem_nil g)

/-- Concrete campaign for C10: one Mobile record whose spend 10.005 has a
third decimal, so the rounded output differs from the exact sum. -/
def c10camp : Campaign :=
  ⟨"c10", 0, 0, [], [], [⟨"Mobile", 1, 0, 0, 10.005, 0⟩], []⟩

/-- C10: every output group's `total_spend` and `total_revenue` are the
accumulated raw sums rounded to two decimals, and its `average_ctr` and
`average_conversion_rate` are the percentage rates (ratio times 100)
rounded to two decimals; at the concrete `c10camp` the rounded spend 10.01
differs from the exact accumulated sum 10.005. -/
theorem c10_device_rounding (campaigns : List Campaign) :
    (∀ g ∈ restructureDevicePerformance campaigns,
      g.total_spend = round2 (deviceRawSum campaigns g.device
          (fun stat => stat.spend))
        ∧ g.total_revenue = round2 (deviceRawSum campaigns g.device
          (fun stat => stat.revenue))
        ∧ g.average_ctr = round2 (if g.total_impressions > 0
          then g.total_clicks / g.total_impressions * 100 else 0)
        ∧ g.average_conversion_rate = round2 (if g.total_clicks > 0
          then g.total_conversions / g.total_clicks * 100 else 0))
    ∧ restructureDevicePerformance [c10camp]
        = [⟨"Mobile", 1, 0, 0, 10.01, 0, 0, 0⟩]
    ∧ deviceRawSum [c10camp] "Mobile" (fun stat => stat.spend) = 10.005
    ∧ (10.01 : ℚ) ≠ 10.005 := by
  refine ⟨?_, ?_, ?_, by norm_num⟩
  · intro g hg
    rw [restructureDevicePerformance] at hg
    by_cases hlen : campaigns.length = 0
    · rw [if_pos hlen] at hg
      exact absurd hg (List.not_mem_nil g)
    · rw [if_neg hlen] at hg
      have hspend := devAccum_proj (fun t => t.spend)
        (fun stat => stat.spend) (fun stat t => rfl) rfl campaigns
      have hrev := devAccum_proj (fun t => t.revenue)
        (fun stat => stat.revenue) (fun stat t => rfl) rfl campaigns
      rcases List.mem_append.mp hg with h | h
        <;> rw [mem_emitDevice_eq h]
      · exact ⟨by rw [← hspend.1], by rw [← hrev.1], rfl, rfl⟩
      · exact ⟨by rw [← hspend.2], by rw [← hrev.2], rfl, rfl⟩
  · simp [restructureDevicePerformance, devAccum, devInnerStep, deviceAdd,
      deviceZero, emitDevice, jsTrim, round2, c10camp]
    norm_num
  · simp [deviceRawSum, jsTrim, c10camp]

/-- Witness for C10 at `c10camp`: the Mobile group's fields are the rounded
sums and rounded percentage rates. -/
theorem c10_device_rounding_witness :
    (⟨"Mobile", 1, 0, 0, 10.01, 0, 0, 0⟩ : AggregatedDeviceData).total_spend
        = round2 (deviceRawSum [c10camp] "Mobile" (fun stat => stat.spend))
      ∧ (⟨"Mobile", 1, 0, 0, 10.01, 0, 0, 0⟩ : AggregatedDeviceData).total_revenue
        = round2 (deviceRawSum [c10camp] "Mobile" (fun stat => stat.revenue))
      ∧ (⟨"Mobile", 1, 0, 0, 10.01, 0, 0, 0⟩ : AggregatedDeviceData).average_ctr
        = round2 (if (⟨"Mobile", 1, 0, 0, 10.01, 0, 0, 0⟩ : AggregatedDeviceData).total_impressions > 0
          then (⟨"Mobile", 1, 0, 0, 10.01, 0, 0, 0⟩ : AggregatedDeviceData).total_clicks
            / (⟨"Mobile", 1, 0, 0, 10.01, 0, 0, 0⟩ : AggregatedDeviceData).total_impressions * 100 else 0)
      ∧ (⟨"Mobile", 1, 0, 0, 10.01, 0, 0, 0⟩ : AggregatedDeviceData).average_conversion_rate
        = round2 (if (⟨"Mobile", 1, 0, 0, 10.01, 0, 0, 0⟩ : AggregatedDeviceData).total_clicks > 0
          then (⟨"Mobile", 1, 0, 0, 10.01, 0, 0, 0⟩ : AggregatedDeviceData).total_conversions
            / (⟨"Mobile", 1, 0, 0, 10.01, 0, 0, 0⟩ : AggregatedDeviceData).total_clicks * 100 else 0) := by
  refine (c10_device_rounding [c10camp]).1 ⟨"Mobile", 1, 0, 0, 10.01, 0, 0, 0⟩ ?_
  rw [(c10_device_rounding [c10camp]).2.1]
  exact List.mem_singleton.mpr rfl

/-- Sum preservation through the weekly grouping: any numeric field of the
final weekly list sums to the corresponding raw input sum. -/
theorem finalWeeklyList_sum (g : AggregatedWeeklyPerformance → ℚ)
    (gt : WeeklyTotals → ℚ) (gr : WeeklyRecord → ℚ)
    (hfin : ∀ t, g (finishWeekly t) = gt t)
    (hinit : ∀ w, gt (weeklyAdd w (weeklyInit w)) = gr w)
    (hadd : ∀ w t, gt (weeklyAdd w t) = gt t + gr w)
    (campaigns : List Campaign) :
    ((finalWeeklyList campaigns).map g).sum
      = (campaigns.map (fun c => (c.weekly_performance.map gr).sum)).sum := by
  rw [finalWeeklyList]
  have hperm := List.mergeSort_perm
    ((weeklyMap campaigns).map (fun p => finishWeekly p.2))
    (fun a b => decide (a.weekStart ≤ b.weekStart))
  rw [List.Perm.sum_eq (hperm.map g), List.map_map]
  have hcong : ∀ p ∈ weeklyMap campaigns,
      (g ∘ fun p => finishWeekly p.2) p = gt p.2 := fun p _ => hfin p.2
  rw [List.map_congr_left hcong]
  exact foldl2_upsert_sum gt (fun c => c.weekly_performance)
    (fun w => w.week_start) (fun _ w => weeklyInit w)
    (fun _ w t => weeklyAdd w t) (fun _ w => gr w)
    (fun _ b => hinit b) (fun _ b v => hadd b v) campaigns

/-- C3: the weekly `avgConversionRate` is the total-based rate — the summed
conversions of the final weekly list over its summed clicks (0 when the
clicks total is 0), which by sum preservation is also the ratio of the raw
input sums — never a mean of per-week rates; whereas the regional
`averageRoas` is the arithmetic mean of the per-group `roas` values of the
final filtered regional list (0 when that list is empty). -/
theorem c3_total_based_rate_vs_mean_roas (campaigns : List Campaign) :
    (weeklyViewResult campaigns).avgConversionRate
        = (if 0 < ((finalWeeklyList campaigns).map (fun i => i.clicks)).sum
          then ((finalWeeklyList campaigns).map (fun i => i.conversions)).sum
            / ((finalWeeklyList campaigns).map (fun i => i.clicks)).sum
          else 0)
      ∧ (weeklyViewResult campaigns).avgConversionRate
        = (if 0 < (campaigns.map (fun c =>
              (c.weekly_performance.map (fun w => w.clicks)).sum)).sum
          then (campaigns.map (fun c =>
              (c.weekly_performance.map (fun w => w.conversions)).sum)).sum
            / (campaigns.map (fun c =>
              (c.weekly_performance.map (fun w => w.clicks)).sum)).sum
          else 0)
      ∧ averageRoas campaigns
        = (if (finalRegionalList campaigns).length = 0 then 0
          else ((finalRegionalList campaigns).map (fun i => i.roas)).sum
            / ((finalRegionalList campaigns).length : ℚ)) := by
  have hclicks : ((finalWeeklyList campaigns).map (fun i => i.clicks)).sum
      = (campaigns.map (fun c =>
        (c.weekly_performance.map (fun w => w.clicks)).sum)).sum :=
    finalWeeklyList_sum (fun i => i.clicks) (fun t => t.clicks)
      (fun w => w.clicks) (fun t => rfl)
      (fun w => by simp [weeklyAdd, weeklyInit])
      (fun w t => rfl) campaigns
  have hconv : ((finalWeeklyList campaigns).map (fun i => i.conversions)).sum
      = (campaigns.map (fun c =>
        (c.weekly_performance.map (fun w => w.conversions)).sum)).sum :=
    finalWeeklyList_sum (fun i => i.conversions) (fun t => t.conversions)
      (fun w => w.conversions) (fun t => rfl)
      (fun w => by simp [weeklyAdd, weeklyInit])
      (fun w t => rfl) campaigns
  have part1 : (weeklyViewResult campaigns).avgConversionRate
      = (if 0 < ((finalWeeklyList campaigns).map (fun i => i.clicks)).sum
        then ((finalWeeklyList campaigns).map (fun i => i.conversions)).sum
          / ((finalWeeklyList campaigns).map (fun i => i.clicks)).sum
        else 0) := by
    by_cases hlen : campaigns.length = 0
    · have hnil : campaigns = [] := List.length_eq_zero.mp hlen
      subst hnil
      norm_num [weeklyViewResult, initialWeeklyResult, finalWeeklyList,
        weeklyMap]
    · simp only [weeklyViewResult, if_neg hlen]
      rw [foldl_add_eq_sum (fun i => i.conversions) (finalWeeklyList campaigns) 0,
        foldl_add_eq_sum (fun i => i.clicks) (finalWeeklyList campaigns) 0]
      norm_num
  refine ⟨part1, by rw [part1, hclicks, hconv], ?_⟩
  by_cases hlen : campaigns.length = 0
  · have hnil : campaigns = [] := List.length_eq_zero.mp hlen
    subst hnil
    norm_num [averageRoas, finalRegionalList, regionalMap]
  · simp only [averageRoas, if_neg hlen]
    rw [foldl_add_eq_sum (fun i => i.roas) (finalRegionalList campaigns) 0]
    by_cases hnil : (finalRegionalList campaigns).length = 0
    · have hempty : finalRegionalList campaigns = [] :=
        List.length_eq_zero.mp hnil
      rw [if_pos hnil, hempty]
      norm_num
    · rw [if_neg hnil]
      have hpos : 0 < (finalRegionalList campaigns).length :=
        Nat.pos_of_ne_zero hnil
      rw [if_pos hpos]
      norm_num

/-- Variant of `upsert_foldl_pred` where the invariant only needs to be
preserved for records satisfying a side condition `R`. -/
theorem upsert_foldl_pred_of {α β : Type} (P : String × α → Prop)
    (R : β → Prop) (key : β → String) (ini : β → α) (upd : β → α → α)
    (hinit : ∀ b, R b → P (key b, upd b (ini b)))
    (hupd : ∀ b k v, R b → P (k, v) → P (k, upd b v)) :
    ∀ (l : List β), (∀ b ∈ l, R b) →
      ∀ (m : List (String × α)), (∀ p ∈ m, P p) →
        ∀ p ∈ l.foldl (fun m b => upsert m (key b) (ini b) (upd b)) m, P p := by
  intro l
  induction l with
  | nil => intro _ m hm; simpa using hm
  | cons b bs ih =>
    intro hl m hm
    simp only [List.foldl_cons]
    have hb : R b := hl b (List.mem_cons_self _ _)
    exact ih (fun x hx => hl x (List.mem_cons_of_mem _ hx)) _
      (upsert_pred P hm (hinit b hb) (fun k v h => hupd b k v hb h))

/-- Variant of `foldl2_upsert_pred` where the invariant only needs to be
preserved for records actually occurring in the campaign list. -/
theorem foldl2_upsert_pred_of {α β γ : Type} (P : String × α → Prop)
    (R : γ → β → Prop) (sub : γ → List β) (key : β → String)
    (ini : γ → β → α) (upd : γ → β → α → α)
    (hinit : ∀ c b, R c b → P (key b, upd c b (ini c b)))
    (hupd : ∀ c b k v, R c b → P (k, v) → P (k, upd c b v))
    (cs : List γ) (hR : ∀ c ∈ cs, ∀ b ∈ sub c, R c b) :
    ∀ p ∈ cs.foldl (fun m c => (sub c).foldl
        (fun m b => upsert m (key b) (ini c b) (upd c b)) m) [], P p := by
  suffices h : ∀ (cs' : List γ), (∀ c ∈ cs', ∀ b ∈ sub c, R c b) →
      ∀ (m : List (String × α)), (∀ p ∈ m, P p) →
        ∀ p ∈ cs'.foldl (fun m c => (sub c).foldl
          (fun m b => upsert m (key b) (ini c b) (upd c b)) m) m, P p by
    exact h cs hR [] (by simp)
  intro cs'
  induction cs' with
  | nil => intro _ m hm; simpa using hm
  | cons c cs' ih =>
    intro hR' m hm
    simp only [List.foldl_cons]
    exact ih (fun x hx => hR' x (List.mem_cons_of_mem _ hx)) _
      (upsert_foldl_pred_of P (R c) key (ini c) (upd c) (hinit c)
        (fun b k v hb h => hupd c b k v hb h) (sub c)
        (hR' c (List.mem_cons_self _ _)) m hm)

/-- The zero-guarded ratio of the source: nonnegative, at most 1 when the
numerator is bounded by the denominator, and exactly 0 on a zero
denominator. -/
theorem guarded_ratio_bounds {a b : ℚ} (h0 : 0 ≤ a) (hab : a ≤ b) :
    0 ≤ (if 0 < b then a / b else 0)
      ∧ (if 0 < b then a / b else 0) ≤ 1
      ∧ (b = 0 → (if 0 < b then a / b else 0) = 0) := by
  by_cases hb : 0 < b
  · rw [if_pos hb]
    exact ⟨div_nonneg h0 hb.le, (div_le_one hb).mpr hab,
      fun h => absurd hb (by rw [h]; exact lt_irrefl 0)⟩
  · rw [if_neg hb]
    exact ⟨le_refl 0, by norm_num, fun _ => rfl⟩

/-- Rounding to two decimals keeps values inside [0, 100]. -/
theorem round2_bounds {q : ℚ} (h0 : 0 ≤ q) (h1 : q ≤ 100) :
    0 ≤ round2 q ∧ round2 q ≤ 100 := by
  rw [round2]
  constructor
  · apply div_nonneg _ (by norm_num)
    have hq : (0 : ℚ) ≤ q * 100 + 1 / 2 := by nlinarith
    exact_mod_cast Int.floor_nonneg.mpr hq
  · have hle : ⌊q * 100 + 1 / 2⌋ ≤ ⌊(10000 + 1 / 2 : ℚ)⌋ :=
      Int.floor_le_floor (by nlinarith)
    have hfl : ⌊(10000 + 1 / 2 : ℚ)⌋ = 10000 := by norm_num
    have hcast : (⌊q * 100 + 1 / 2⌋ : ℚ) ≤ 10000 := by
      exact_mod_cast hfl ▸ hle
    rw [div_le_iff₀ (by norm_num : (0:ℚ) < 100)]
    linarith

/-- `round2` fixes 0. -/
theorem round2_zero : round2 0 = 0 := by
  norm_num [round2]

/-- Concrete campaign list for the C4 counterexample: one weekly record
with 1 impression but 2 clicks — every count is nonnegative, yet the
aggregated ctr is 2, outside [0, 1]. -/
def c4camps : List Campaign :=
  [⟨"c4", 0, 0, [⟨"2024-01-01", "2024-01-07", 1, 2, 0, 0, 0⟩], [], [], []⟩]

/-- Counterexample to C4 as stated: all input counts of `c4camps` are
nonnegative, but the weekly aggregation produces a group whose ctr is 2,
which is not at most 1. -/
theorem c4_ctr_counterexample :
    (∀ c ∈ c4camps, ∀ w ∈ c.weekly_performance,
      0 ≤ w.impressions ∧ 0 ≤ w.clicks ∧ 0 ≤ w.conversions)
      ∧ finalWeeklyList c4camps
        = [⟨"2024-01-01", "2024-01-07", 1, 2, 0, 0, 0, 2, 0⟩]
      ∧ ¬(∀ g ∈ finalWeeklyList c4camps, g.ctr ≤ 1) := by
  have heval : finalWeeklyList c4camps
      = [⟨"2024-01-01", "2024-01-07", 1, 2, 0, 0, 0, 2, 0⟩] := by
    simp [finalWeeklyList, weeklyMap, upsert, weeklyInit, weeklyAdd,
      finishWeekly, c4camps, List.mergeSort]
  refine ⟨?_, heval, ?_⟩
  · intro c hc w hw
    simp only [c4camps, List.mem_singleton] at hc
    subst hc
    simp only [List.mem_singleton] at hw
    subst hw
    norm_num
  · intro hall
    have h2 := hall ⟨"2024-01-01", "2024-01-07", 1, 2, 0, 0, 0, 2, 0⟩
      (by rw [heval]; exact List.mem_singleton.mpr rfl)
    norm_num at h2

/-- Order constraints on a triple of engagement counts: conversions,
clicks and impressions are nonnegative and conversions ≤ clicks ≤
impressions. -/
def countsOk (impressions clicks conversions : ℚ) : Prop :=
  0 ≤ conversions ∧ conversions ≤ clicks ∧ clicks ≤ impressions

/-- `countsOk` is preserved by adding another `countsOk` triple. -/
theorem countsOk_add {i₁ c₁ v₁ i₂ c₂ v₂ : ℚ} (h₁ : countsOk i₁ c₁ v₁)
    (h₂ : countsOk i₂ c₂ v₂) : countsOk (i₁ + i₂) (c₁ + c₂) (v₁ + v₂) :=
  ⟨add_nonneg h₁.1 h₂.1, add_le_add h₁.2.1 h₂.2.1, add_le_add h₁.2.2 h₂.2.2⟩

/-- The zero triple satisfies `countsOk`. -/
theorem countsOk_zero : countsOk 0 0 0 :=
  ⟨le_refl 0, le_refl 0, le_refl 0⟩

/-- Accumulated weekly totals inherit the count constraints of the input
records. -/
theorem weeklyMap_counts (campaigns : List Campaign)
    (h : ∀ c ∈ campaigns, ∀ w ∈ c.weekly_performance,
      countsOk w.impressions w.clicks w.conversions) :
    ∀ p ∈ weeklyMap campaigns,
      countsOk p.2.impressions p.2.clicks p.2.conversions := by
  have haux := foldl2_upsert_pred_of
    (fun p => countsOk p.2.impressions p.2.clicks p.2.conversions)
    (fun _ w => countsOk w.impressions w.clicks w.conversions)
    (fun c => c.weekly_performance) (fun w => w.week_start)
    (fun _ w => weeklyInit w) (fun _ w t => weeklyAdd w t)
    (fun _ w hw => by
      simpa [weeklyAdd, weeklyInit, countsOk] using hw)
    (fun _ w k t hw ht => countsOk_add ht hw)
    campaigns h
  exact haux

/-- Accumulated demographic totals inherit the count constraints of the
input records' performance blocks. -/
theorem demographicMap_counts (campaigns : List Campaign)
    (h : ∀ c ∈ campaigns, ∀ b ∈ c.demographic_breakdown,
      countsOk b.performance.impressions b.performance.clicks
        b.performance.conversions) :
    ∀ p ∈ demographicMap campaigns,
      countsOk p.2.impressions p.2.clicks p.2.conversions := by
  have haux := foldl2_upsert_pred_of
    (fun p => countsOk p.2.impressions p.2.clicks p.2.conversions)
    (fun _ b => countsOk b.performance.impressions b.performance.clicks
      b.performance.conversions)
    (fun c => c.demographic_breakdown)
    (fun b => b.gender ++ "-" ++ b.age_group)
    (fun _ _ => demoZero) (fun c b t => demoAdd c b t)
    (fun c b hb => by
      simpa [demoAdd, demoZero, countsOk] using hb)
    (fun c b k t hb ht => countsOk_add ht hb)
    campaigns h
  exact haux

/-- Accumulated regional totals inherit the count constraints of the input
records. -/
theorem regionalMap_counts (campaigns : List Campaign)
    (h : ∀ c ∈ campaigns, ∀ r ∈ c.regional_performance,
      countsOk r.impressions r.clicks r.conversions) :
    ∀ p ∈ regionalMap campaigns,
      countsOk p.2.impressions p.2.clicks p.2.conversions := by
  have haux := foldl2_upsert_pred_of
    (fun p => countsOk p.2.impressions p.2.clicks p.2.conversions)
    (fun _ r => countsOk r.impressions r.clicks r.conversions)
    (fun c => c.regional_performance)
    (fun r => r.region ++ "-" ++ r.country)
    (fun _ r => regionalInit r) (fun _ r t => regionalAdd r t)
    (fun _ r hr => by
      simpa [regionalAdd, regionalInit, countsOk] using hr)
    (fun _ r k t hr ht => countsOk_add ht hr)
    campaigns h
  exact haux

/-- One device record loop preserves the count constraints of both
accumulators. -/
theorem devFold_counts :
    ∀ (l : List DeviceRecord),
      (∀ s ∈ l, countsOk s.impressions s.clicks s.conversions) →
      ∀ (acc : DeviceTotals × DeviceTotals),
        countsOk acc.1.impressions acc.1.clicks acc.1.conversions →
        countsOk acc.2.impressions acc.2.clicks acc.2.conversions →
        countsOk (l.foldl devInnerStep acc).1.impressions
            (l.foldl devInnerStep acc).1.clicks
            (l.foldl devInnerStep acc).1.conversions
          ∧ countsOk (l.foldl devInnerStep acc).2.impressions
            (l.foldl devInnerStep acc).2.clicks
            (l.foldl devInnerStep acc).2.conversions := by
  intro l
  induction l with
  | nil => intro _ acc h1 h2; exact ⟨h1, h2⟩
  | cons stat rest ih =>
    intro hl acc h1 h2
    have hstat := hl stat (List.mem_cons_self _ _)
    have hrest := fun x hx => hl x (List.mem_cons_of_mem _ hx)
    simp only [List.foldl_cons]
    rw [devInnerStep]
    by_cases hM : jsTrim stat.device = "Mobile"
    · simp only [hM, if_pos rfl]
      exact ih hrest _ (countsOk_add h1 hstat) h2
    · by_cases hD : jsTrim stat.device = "Desktop"
      · simp only [if_neg hM, hD, if_pos rfl]
        exact ih hrest _ h1 (countsOk_add h2 hstat)
      · simp only [if_neg hM, if_neg hD]
        exact ih hrest _ h1 h2

/-- Both device accumulators satisfy the count constraints whenever every
input record does. -/
theorem devAccum_counts (campaigns : List Campaign)
    (h : ∀ c ∈ campaigns, ∀ s ∈ c.device_performance,
      countsOk s.impressions s.clicks s.conversions) :
    countsOk (devAccum campaigns).1.impressions
        (devAccum campaigns).1.clicks (devAccum campaigns).1.conversions
      ∧ countsOk (devAccum campaigns).2.impressions
        (devAccum campaigns).2.clicks (devAccum campaigns).2.conversions := by
  rw [devAccum]
  suffices haux : ∀ (cs : List Campaign),
      (∀ c ∈ cs, ∀ s ∈ c.device_performance,
        countsOk s.impressions s.clicks s.conversions) →
      ∀ (acc : DeviceTotals × DeviceTotals),
        countsOk acc.1.impressions acc.1.clicks acc.1.conversions →
        countsOk acc.2.impressions acc.2.clicks acc.2.conversions →
        countsOk (cs.foldl (fun acc campaign =>
              campaign.device_performance.foldl devInnerStep acc) acc).1.impressions
            (cs.foldl (fun acc campaign =>
              campaign.device_performance.foldl devInnerStep acc) acc).1.clicks
            (cs.foldl (fun acc campaign =>
              campaign.device_performance.foldl devInnerStep acc) acc).1.conversions
          ∧ countsOk (cs.foldl (fun acc campaign =>
              campaign.device_performance.foldl devInnerStep acc) acc).2.impressions
            (cs.foldl (fun acc campaign =>
              campaign.device_performance.foldl devInnerStep acc) acc).2.clicks
            (cs.foldl (fun acc campaign =>
              campaign.device_performance.foldl devInnerStep acc) acc).2.conversions by
    exact haux campaigns h (deviceZero, deviceZero)
      (by simp [deviceZero, countsOk])
      (by simp [deviceZero, countsOk])
  intro cs
  induction cs with
  | nil => intro _ acc h1 h2; exact ⟨h1, h2⟩
  | cons c cs ih =>
    intro hcs acc h1 h2
    simp only [List.foldl_cons]
    have hstep := devFold_counts c.device_performance
      (hcs c (List.mem_cons_self _ _)) acc h1 h2
    exact ih (fun x hx => hcs x (List.mem_cons_of_mem _ hx)) _
      hstep.1 hstep.2

/-- The zero-guarded percentage of the device aggregation: in [0, 100] when
the numerator is a nonnegative number bounded by the denominator, and 0 on
a zero denominator. -/
theorem guarded_percent_bounds {a b : ℚ} (h0 : 0 ≤ a) (hab : a ≤ b) :
    0 ≤ (if 0 < b then a / b * 100 else 0)
      ∧ (if 0 < b then a / b * 100 else 0) ≤ 100
      ∧ (b = 0 → (if 0 < b then a / b * 100 else 0) = 0) := by
  by_cases hb : 0 < b
  · rw [if_pos hb]
    have h₁ := div_nonneg h0 hb.le
    have h₂ := (div_le_one hb).mpr hab
    exact ⟨by nlinarith, by nlinarith,
      fun h => absurd hb (by rw [h]; exact lt_irrefl 0)⟩
  · rw [if_neg hb]
    exact ⟨le_refl 0, by norm_num, fun _ => rfl⟩

/-- C4 (amended): for groups of all four aggregations, when every input
record's counts are nonnegative and ordered (conversions ≤ clicks ≤
impressions — without the ordering the claim fails, see the
counterexample), the weekly, demographic and regional `ctr` and
`conversionRate` lie in [0, 1] and are exactly 0 when their denominator
(impressions resp. clicks) is 0; the device groups' percentage analogues
lie in [0, 100] with the same zero-denominator behaviour. -/
theorem c4_amended_rates_in_range (campaigns : List Campaign)
    (hweek : ∀ c ∈ campaigns, ∀ w ∈ c.weekly_performance,
      countsOk w.impressions w.clicks w.conversions)
    (hdemo : ∀ c ∈ campaigns, ∀ b ∈ c.demographic_breakdown,
      countsOk b.performance.impressions b.performance.clicks
        b.performance.conversions)
    (hdev : ∀ c ∈ campaigns, ∀ s ∈ c.device_performance,
      countsOk s.impressions s.clicks s.conversions)
    (hreg : ∀ c ∈ campaigns, ∀ r ∈ c.regional_performance,
      countsOk r.impressions r.clicks r.conversions) :
    (∀ g ∈ finalWeeklyList campaigns,
      (0 ≤ g.ctr ∧ g.ctr ≤ 1)
        ∧ (0 ≤ g.conversionRate ∧ g.conversionRate ≤ 1)
        ∧ (g.impressions = 0 → g.ctr = 0)
        ∧ (g.clicks = 0 → g.conversionRate = 0))
      ∧ (∀ g ∈ aggregatedList campaigns,
        (0 ≤ g.ctr ∧ g.ctr ≤ 1)
          ∧ (0 ≤ g.conversionRate ∧ g.conversionRate ≤ 1)
          ∧ (g.impressions = 0 → g.ctr = 0)
          ∧ (g.clicks = 0 → g.conversionRate = 0))
      ∧ (∀ g ∈ finalRegionalList campaigns,
        (0 ≤ g.ctr ∧ g.ctr ≤ 1)
          ∧ (0 ≤ g.conversionRate ∧ g.conversionRate ≤ 1)
          ∧ (g.impressions = 0 → g.ctr = 0)
          ∧ (g.clicks = 0 → g.conversionRate = 0))
      ∧ (∀ g ∈ restructureDevicePerformance campaigns,
        (0 ≤ g.average_ctr ∧ g.average_ctr ≤ 100)
          ∧ (0 ≤ g.average_conversion_rate ∧ g.average_conversion_rate ≤ 100)
          ∧ (g.total_impressions = 0 → g.average_ctr = 0)
          ∧ (g.total_clicks = 0 → g.average_conversion_rate = 0)) := by
  refine ⟨?_, ?_, ?_, ?_⟩
  · intro g hg
    rw [finalWeeklyList] at hg
    have hg' := (List.mergeSort_perm
      ((weeklyMap campaigns).map (fun p => finishWeekly p.2))
      (fun a b => decide (a.weekStart ≤ b.weekStart))).mem_iff.mp hg
    obtain ⟨p, hp, hfp⟩ := List.mem_map.mp hg'
    have hc := weeklyMap_counts campaigns hweek p hp
    subst hfp
    simp only [finishWeekly]
    have h₁ := guarded_ratio_bounds (le_trans hc.1 hc.2.1) hc.2.2
    have h₂ := guarded_ratio_bounds hc.1 hc.2.1
    exact ⟨⟨h₁.1, h₁.2.1⟩, ⟨h₂.1, h₂.2.1⟩, h₁.2.2, h₂.2.2⟩
  · intro g hg
    rw [aggregatedList] at hg
    obtain ⟨p, hp, hfp⟩ := List.mem_map.mp hg
    have hc := demographicMap_counts campaigns hdemo p hp
    subst hfp
    simp only []
    have h₁ := guarded_ratio_bounds (le_trans hc.1 hc.2.1) hc.2.2
    have h₂ := guarded_ratio_bounds hc.1 hc.2.1
    exact ⟨⟨h₁.1, h₁.2.1⟩, ⟨h₂.1, h₂.2.1⟩, h₁.2.2, h₂.2.2⟩
  · intro g hg
    rw [finalRegionalList] at hg
    obtain ⟨p, hp, hfp⟩ := List.mem_map.mp (List.mem_filter.mp hg).1
    have hc := regionalMap_counts campaigns hreg p hp
    subst hfp
    simp only [finishRegional]
    have h₁ := guarded_ratio_bounds (le_trans hc.1 hc.2.1) hc.2.2
    have h₂ := guarded_ratio_bounds hc.1 hc.2.1
    exact ⟨⟨h₁.1, h₁.2.1⟩, ⟨h₂.1, h₂.2.1⟩, h₁.2.2, h₂.2.2⟩
  · intro g hg
    rw [restructureDevicePerformance] at hg
    by_cases hlen : campaigns.length = 0
    · rw [if_pos hlen] at hg
      exact absurd hg (List.not_mem_nil g)
    · rw [if_neg hlen] at hg
      have hcounts := devAccum_counts campaigns hdev
      rcases List.mem_append.mp hg with h | h
        <;> rw [mem_emitDevice_eq h]
      · have hc := hcounts.1
        have hv₁ := guarded_percent_bounds (le_trans hc.1 hc.2.1) hc.2.2
        have hv₂ := guarded_percent_bounds hc.1 hc.2.1
        have hr₁ := round2_bounds hv₁.1 hv₁.2.1
        have hr₂ := round2_bounds hv₂.1 hv₂.2.1
        refine ⟨hr₁, hr₂, ?_, ?_⟩
        · intro h0
          rw [hv₁.2.2 h0, round2_zero]
        · intro h0
          rw [hv₂.2.2 h0, round2_zero]
      · have hc := hcounts.2
        have hv₁ := guarded_percent_bounds (le_trans hc.1 hc.2.1) hc.2.2
        have hv₂ := guarded_percent_bounds hc.1 hc.2.1
        have hr₁ := round2_bounds hv₁.1 hv₁.2.1
        have hr₂ := round2_bounds hv₂.1 hv₂.2.1
        refine ⟨hr₁, hr₂, ?_, ?_⟩
        · intro h0
          rw [hv₁.2.2 h0, round2_zero]
        · intro h0
          rw [hv₂.2.2 h0, round2_zero]

/-- Concrete campaign list for the C4 witness: one weekly record with 10
impressions, 5 clicks, 1 conversion. -/
def c4goodcamps : List Campaign :=
  [⟨"ok", 0, 0, [⟨"2024-01-01", "2024-01-07", 10, 5, 1, 0, 0⟩], [], [], []⟩]

/-- Witness for the amended C4 at `c4goodcamps`: the weekly group's ctr 1/2
and conversion rate 1/5 satisfy the bounds. -/
theorem c4_amended_rates_in_range_witness :
    (0 ≤ (⟨"2024-01-01", "2024-01-07", 10, 5, 1, 0, 0, 1/2, 1/5⟩
        : AggregatedWeeklyPerformance).ctr
      ∧ (⟨"2024-01-01", "2024-01-07", 10, 5, 1, 0, 0, 1/2, 1/5⟩
        : AggregatedWeeklyPerformance).ctr ≤ 1)
    ∧ (0 ≤ (⟨"2024-01-01", "2024-01-07", 10, 5, 1, 0, 0, 1/2, 1/5⟩
        : AggregatedWeeklyPerformance).conversionRate
      ∧ (⟨"2024-01-01", "2024-01-07", 10, 5, 1, 0, 0, 1/2, 1/5⟩
        : AggregatedWeeklyPerformance).conversionRate ≤ 1)
    ∧ ((⟨"2024-01-01", "2024-01-07", 10, 5, 1, 0, 0, 1/2, 1/5⟩
        : AggregatedWeeklyPerformance).impressions = 0
      → (⟨"2024-01-01", "2024-01-07", 10, 5, 1, 0, 0, 1/2, 1/5⟩
        : AggregatedWeeklyPerformance).ctr = 0)
    ∧ ((⟨"2024-01-01", "2024-01-07", 10, 5, 1, 0, 0, 1/2, 1/5⟩
        : AggregatedWeeklyPerformance).clicks = 0
      → (⟨"2024-01-01", "2024-01-07", 10, 5, 1, 0, 0, 1/2, 1/5⟩
        : AggregatedWeeklyPerformance).conversionRate = 0) := by
  refine (c4_amended_rates_in_range c4goodcamps ?_ ?_ ?_ ?_).1
    ⟨"2024-01-01", "2024-01-07", 10, 5, 1, 0, 0, 1/2, 1/5⟩ ?_
  · intro c hc w hw
    simp only [c4goodcamps, List.mem_singleton] at hc
    subst hc
    simp only [List.mem_singleton] at hw
    subst hw
    norm_num [countsOk]
  · intro c hc b hb
    simp only [c4goodcamps, List.mem_singleton] at hc
    subst hc
    exact absurd hb (List.not_mem_nil b)
  · intro c hc s hs
    simp only [c4goodcamps, List.mem_singleton] at hc
    subst hc
    exact absurd hs (List.not_mem_nil s)
  · intro c hc r hr
    simp only [c4goodcamps, List.mem_singleton] at hc
    subst hc
    exact absurd hr (List.not_mem_nil r)
  · simp [finalWeeklyList, weeklyMap, upsert, weeklyInit, weeklyAdd,
      finishWeekly, c4goodcamps, List.mergeSort]
    norm_num

/-- Concrete campaign for C2: a single demographic record with the
hyphenated age-group label 18-24. -/
def c2camp : Campaign :=
  ⟨"c2", 100, 200, [], [⟨"Male", "18-24", 50, ⟨10, 5, 1⟩⟩], [], []⟩

/-- C2 fails on the code: the composite key Male-18-24 is split on every
hyphen and only pieces 0 and 1 are kept, so the group's age-group label is
the truncated "18", not the record's full label "18-24"; the bar-chart
series inherit the truncated label. -/
theorem c2_age_group_label_truncated :
    jsSplit ("Male" ++ "-" ++ "18-24") '-' = ["Male", "18", "24"]
      ∧ (aggregatedList [c2camp]).map (fun g => g.ageGroup) = ["18"]
      ∧ (spendChart [c2camp]).map (fun p => p.label) = ["18"]
      ∧ (revenueChart [c2camp]).map (fun p => p.label) = ["18"]
      ∧ ¬((aggregatedList [c2camp]).map (fun g => g.ageGroup) = ["18-24"]) := by
  have hsplit : jsSplit ("Male" ++ "-" ++ "18-24") '-' = ["Male", "18", "24"] := by
    decide
  have hmap : demographicMap [c2camp]
      = [("Male-18-24", demoAdd c2camp ⟨"Male", "18-24", 50, ⟨10, 5, 1⟩⟩ demoZero)] := by
    simp [demographicMap, upsert, c2camp]
  have hagg : (aggregatedList [c2camp]).map (fun g => g.ageGroup) = ["18"] := by
    rw [aggregatedList, hmap]
    simp only [List.map_cons, List.map_nil]
    have hpiece : (jsSplit "Male-18-24" '-')[1]?.getD "" = "18" := by decide
    simp [hpiece]
  have hages : ageGroups [c2camp] = ["18"] := by
    rw [ageGroups, ageDataMap, aggregatedList, hmap]
    simp only [List.map_cons, List.map_nil, List.foldl_cons, List.foldl_nil]
    have hpiece : (jsSplit "Male-18-24" '-')[1]?.getD "" = "18" := by decide
    simp [hpiece, upsert, List.mergeSort]
  refine ⟨hsplit, hagg, ?_, ?_, ?_⟩
  · rw [spendChart, hages]
    simp
  · rw [revenueChart, hages]
    simp
  · rw [hagg]
    intro h
    have := List.head_eq_of_cons_eq h
    simp at this

end Amana
